import Mathlib

/-!
Shallow embedding of `src/yas/src/ocr/yas_model/yas_ocr_model.rs` (struct
`YasOCRModel` and its `ImageToText` implementations), together with theorems
checking the natural-language specification against it.

Modelling conventions:
* `f32`/`f64` scores and elapsed times are modelled as `ℚ`; the decode loop
  only compares and adds them, and on the non-NaN floats produced here those
  operations agree with exact arithmetic order.  The one place where genuine
  IEEE-754 behaviour matters (division by a zero count in
  `get_average_inference_time`) is modelled by the explicit `F64` type below.
* A Rust `panic!` / failed `assert_eq!` / out-of-bounds index / `.unwrap()`
  on `None` is the `crash` outcome; a recoverable `anyhow::Error` returned
  with `?` is the `err` outcome; `Ok` is `ok`.
* The neural network run (`self.model.run`, an external `tract` capability),
  the wall clock, `preprocess::to_gray`, `preprocess::pre_process` and
  `to_f32_gray_image` (repository modules not present under `src/`) are
  abstracted as explicit function parameters; the claims below only depend on
  their results, never on their internals.
-/

namespace YasOCR

/-- Kinds of Rust panics (non-recoverable aborts) that the modelled code can
raise: a failed `assert_eq!`, an out-of-bounds index (`Vec`/`ndarray`
indexing), or `.unwrap()` on a `None`/`Err`. -/
inductive Abort where
  | assertFailed
  | indexOutOfBounds
  | unwrapFailed
  deriving DecidableEq

/-- Outcome of running a piece of Rust code: `ok` a value, `crash` on a panic
(process abort, not recoverable), or `err` for a typed `anyhow::Error`
returned through `?` (recoverable by the caller). -/
inductive RunResult (α : Type) where
  | ok : α → RunResult α
  | crash : Abort → RunResult α
  | err : String → RunResult α
  deriving DecidableEq

/-- The mutable statistics fields of `YasOCRModel`: `inference_time`
(cumulative seconds, an `f64` modelled as `ℚ`) and `invoke_count`
(cumulative count, a `usize` modelled as `ℕ`).  Lines 16-17 of the source. -/
structure OCRState where
  inference_time : ℚ
  invoke_count : Nat
  deriving DecidableEq

/-- Embeds `YasOCRModel::inc_statistics` (source lines 21-27): add one to the
invocation count and add `time` to the cumulative inference time. -/
def inc_statistics (s : OCRState) (time : ℚ) : OCRState :=
  { inference_time := s.inference_time + time, invoke_count := s.invoke_count + 1 }

/-- A model of the `f64` values produced by the statistics query: either a
finite value (held exactly as a rational) or one of the IEEE-754 non-finite
values NaN, `+∞`, `-∞`. -/
inductive F64 where
  | finite : ℚ → F64
  | nan
  | posInf
  | negInf
  deriving DecidableEq

/-- Whether an `F64` is a finite floating-point value. -/
def F64.isFinite : F64 → Bool
  | .finite _ => true
  | _ => false

/-- IEEE-754 double division for the cases arising in the statistics query
(both operands finite, the divisor a nonnegative count): `0/0` is NaN, `x/0`
for `x ≠ 0` is a signed infinity, and otherwise the exact quotient. -/
def f64div (num den : ℚ) : F64 :=
  if den = 0 then
    if num = 0 then .nan else if 0 < num then .posInf else .negInf
  else .finite (num / den)

/-- Embeds `YasOCRModel::get_average_inference_time` (source lines 29-33):
`total_time / count as f64`. -/
def get_average_inference_time (s : OCRState) : F64 :=
  f64div s.inference_time (s.invoke_count : ℚ)

/-- The raw output tensor of one model run, shape `[T, 1, C]`: `T` timesteps,
`C` classes, and `val i j` the `f32` score `arr[[i, 0, j]]` (meaningful for
`i < T`, `j < C`; reads outside `j < C` panic in `ndarray` and are modelled
as such in the decode loop). -/
structure OutTensor where
  T : Nat
  C : Nat
  val : Nat → Nat → ℚ

/-- The inner argmax loop of `inference_string` (source lines 79-87), folded
over the list of candidate class indices: the accumulator holds
`(max_index, max_value)` and is replaced exactly when `value > max_value`
(strict comparison). -/
def bestIndexAux (row : Nat → ℚ) : List Nat → Nat × ℚ → Nat × ℚ
  | [], acc => acc
  | j :: js, acc =>
      bestIndexAux row js (if row j > acc.2 then (j, row j) else acc)

/-- The argmax over class indices `0..len` computed by `inference_string`
for one timestep row: `max_index` starts at `0`, `max_value` starts at the
sentinel `-1.0`.  Note the loop bound is the alphabet length
(`self.index_to_word.len()`), not the tensor's class dimension. -/
def bestIndex (len : Nat) (row : Nat → ℚ) : Nat :=
  (bestIndexAux row (List.range len) (0, -1)).1

/-- The decode loop of `inference_string` (source lines 76-94) over the given
list of timesteps, carrying `ans` and `last_word`.  Per timestep: if the
alphabet is longer than the tensor's class dimension the `arr[[i, 0, j]]`
read panics in `ndarray`; otherwise look up the argmax label (panics when the
alphabet is empty, since `index_to_word[0]` is out of bounds), append it when
it differs from `last_word` and is not `"-"`, and remember it as `last_word`
unconditionally. -/
def decodeLoop (alphabet : List String) (t : OutTensor) :
    List Nat → String → String → RunResult String
  | [], ans, _ => .ok ans
  | i :: is, ans, last =>
      if alphabet.length ≤ t.C then
        match alphabet.get? (bestIndex alphabet.length (t.val i)) with
        | some word =>
            decodeLoop alphabet t is
              (if word ≠ last ∧ word ≠ "-" then ans ++ word else ans) word
        | none => .crash .indexOutOfBounds
      else .crash .indexOutOfBounds

/-- Embeds `YasOCRModel::inference_string` (source lines 63-101) given the
result of the model run on this image.  `run img` is the external
`self.model.run(tensor)` (a typed error through `?` on failure), `elapsed
img` the wall-clock seconds measured around it; on success the decoded string
is produced and the statistics are updated once via `inc_statistics`. -/
def inference_string {Img : Type} (alphabet : List String)
    (run : Img → Except String OutTensor) (elapsed : Img → ℚ)
    (img : Img) (s : OCRState) : RunResult (String × OCRState) :=
  match run img with
  | .error e => .err e
  | .ok t =>
      match decodeLoop alphabet t (List.range t.T) "" "" with
      | .ok ans => .ok (ans, inc_statistics s (elapsed img))
      | .crash a => .crash a
      | .err e => .err e

/-- Convenience instantiation of `inference_string` at a fixed, successful
model output tensor and a fixed elapsed time (the image is irrelevant). -/
def inference_on_tensor (alphabet : List String) (t : OutTensor) (e : ℚ)
    (s : OCRState) : RunResult (String × OCRState) :=
  inference_string alphabet (fun _ : Unit => Except.ok t) (fun _ => e) () s

/-- Embeds `impl ImageToText<ImageBuffer<Luma<f32>, _>> for YasOCRModel`
(source lines 120-137): if `is_preprocessed`, run inference directly;
otherwise run `preprocess::pre_process` (abstracted as `pre_process`,
returning the processed buffer and the `non_mono` flag) and return the empty
string without inference when the flag is false. -/
def image_to_text_f32 {Img : Type} (alphabet : List String)
    (run : Img → Except String OutTensor) (elapsed : Img → ℚ)
    (pre_process : Img → Img × Bool) (image : Img) (is_preprocessed : Bool)
    (s : OCRState) : RunResult (String × OCRState) :=
  if is_preprocessed then
    inference_string alphabet run elapsed image s
  else
    if (pre_process image).2 = false then .ok ("", s)
    else inference_string alphabet run elapsed (pre_process image).1 s

/-- Embeds `impl ImageToText<RgbImage> for YasOCRModel` (source lines
103-118): `assert_eq!(is_preprocessed, false)` panics on `true`; otherwise
`preprocess::to_gray` (abstracted as `to_gray`) then `pre_process`, with the
same mono short-circuit, then inference. -/
def image_to_text_rgb {Rgb Img : Type} (alphabet : List String)
    (run : Img → Except String OutTensor) (elapsed : Img → ℚ)
    (to_gray : Rgb → Img) (pre_process : Img → Img × Bool) (image : Rgb)
    (is_preprocessed : Bool) (s : OCRState) : RunResult (String × OCRState) :=
  if is_preprocessed then .crash .assertFailed
  else
    if (pre_process (to_gray image)).2 = false then .ok ("", s)
    else inference_string alphabet run elapsed (pre_process (to_gray image)).1 s

/-- Embeds `impl ImageToText<GrayImage> for YasOCRModel` (source lines
139-144): convert the integer-grayscale image with `to_f32_gray_image`
(abstracted as `to_f32`) and dispatch to the `Luma<f32>` implementation with
the same flag. -/
def image_to_text_gray {GrayT Img : Type} (alphabet : List String)
    (run : Img → Except String OutTensor) (elapsed : Img → ℚ)
    (to_f32 : GrayT → Img) (pre_process : Img → Img × Bool) (im : GrayT)
    (is_preprocessed : Bool) (s : OCRState) : RunResult (String × OCRState) :=
  image_to_text_f32 alphabet run elapsed pre_process (to_f32 im) is_preprocessed s

/-- The shapes of `serde_json::Value` that `YasOCRModel::new` distinguishes:
a JSON string, a JSON object (an association list; keys are unique strings),
or any other JSON value. -/
inductive Json where
  | str : String → Json
  | obj : List (String × Json) → Json
  | other : Json

/-- Rust `v.as_str()`: `Some` of the string for a JSON string, `None`
otherwise. -/
def Json.as_str : Json → Option String
  | .str s => some s
  | _ => none

/-- One step of accumulating a decimal number, as in Rust's integer
`from_str`: accept an ASCII digit, fail on anything else. -/
def pushDigit (acc : Nat) (c : Char) : Option Nat :=
  if c.isDigit then some (acc * 10 + (c.toNat - 48)) else none

/-- Accumulate the remaining characters of a decimal numeral. -/
def parseDigits : List Char → Nat → Option Nat
  | [], acc => some acc
  | c :: cs, acc =>
      match pushDigit acc c with
      | some acc2 => parseDigits cs acc2
      | none => none

/-- Embeds `str::parse::<usize>()` on a 64-bit target: an optional leading
`+`, then one or more ASCII digits, with the value below `2 ^ 64`; anything
else is a parse failure (`None`). -/
def parse_usize (str : String) : Option Nat :=
  let cs := match str.data with
    | '+' :: rest => rest
    | cs => cs
  match cs with
  | [] => none
  | _ =>
      match parseDigits cs 0 with
      | some n => if n < 2 ^ 64 then some n else none
      | none => none

/-- The `.iter().map(...)` step of `YasOCRModel::new` (source lines 44-49):
parse each key with `.parse::<usize>().unwrap()` and each value with
`.as_str().unwrap()`, so any failure is a panic, not a recoverable error. -/
def mapPairs : List (String × Json) → RunResult (List (Nat × String))
  | [] => .ok []
  | (k, v) :: rest =>
      match parse_usize k with
      | none => .crash .unwrapFailed
      | some n =>
          match v.as_str with
          | none => .crash .unwrapFailed
          | some w =>
              match mapPairs rest with
              | .ok l => .ok ((n, w) :: l)
              | .crash a => .crash a
              | .err e => .err e

/-- The comparison used by `index_to_word.sort_by(|(k1, _), (k2, _)|
k1.cmp(k2))`: order pairs by their parsed integer key. -/
def keyLE (a b : Nat × String) : Prop := a.1 ≤ b.1

instance : DecidableRel keyLE := fun a b => inferInstanceAs (Decidable (a.1 ≤ b.1))

instance : IsTotal (Nat × String) keyLE := ⟨fun a b => Nat.le_total a.1 b.1⟩

instance : IsTrans (Nat × String) keyLE := ⟨fun _ _ _ h h2 => Nat.le_trans h h2⟩

/-- Embeds the alphabet construction of `YasOCRModel::new` (source lines
42-53), starting from the parsed `serde_json::Value`: `as_object().unwrap()`
panics unless the value is an object; each entry is mapped through the
unwrapping parse (`mapPairs`); the pairs are sorted ascending by integer key
(Rust `sort_by` is a stable sort, modelled by `List.insertionSort`, which is
also stable); the keys are discarded. -/
def new_index_to_word (j : Json) : RunResult (List String) :=
  match j with
  | .obj pairs =>
      match mapPairs pairs with
      | .ok l => .ok ((l.insertionSort keyLE).map Prod.snd)
      | .crash a => .crash a
      | .err e => .err e
  | _ => .crash .unwrapFailed

/-- A tensor whose row at timestep `i` is the one-hot indicator of the i-th
entry of `idxs` (score `1` at that class, `0` elsewhere): a model output
realising a given per-timestep best-index sequence. -/
def tensorOfIndices (C : Nat) (idxs : List Nat) : OutTensor :=
  ⟨idxs.length, C, fun i j => if idxs.get? i = some j then 1 else 0⟩

/-- The label the decode loop picks at timestep `i` (with `""` as the default
never actually used when the argmax is in range). -/
def wordAt (alphabet : List String) (t : OutTensor) (i : Nat) : String :=
  alphabet.getD (bestIndex alphabet.length (t.val i)) ""

/-- Modelled from the spec: the word-level collapse rule of §4.4 — walk the
per-timestep labels left to right carrying `(output, last)`; append a label
only if it differs from the previous timestep's label and is not the blank,
and remember it as `last` unconditionally. -/
def specCollapse (blank : String) (words : List String) : String :=
  (words.foldl
    (fun (p : String × String) w =>
      (if w ≠ p.2 ∧ w ≠ blank then p.1 ++ w else p.1, w)) ("", "")).1

/-- A sequence of successful recognition calls on an initially fresh model:
each call runs `inference_string` on its tensor with its elapsed time and
threads the statistics state. -/
def runSeq (alphabet : List String) :
    List (OutTensor × ℚ) → OCRState → RunResult OCRState
  | [], s => .ok s
  | c :: cs, s =>
      match inference_on_tensor alphabet c.1 c.2 s with
      | .ok p => runSeq alphabet cs p.2
      | .crash a => .crash a
      | .err e => .err e

/-- A model-run stub that always fails with a typed error (used to
instantiate witnesses on paths that never reach inference). -/
def run0 : Unit → Except String OutTensor := fun _ => Except.error "no model"

/-- A zero elapsed-time clock for witnesses. -/
def el0 : Unit → ℚ := fun _ => 0

/-- A preprocessor stub whose `non_mono` flag is always `false`. -/
def pp0 : Unit → Unit × Bool := fun _ => ((), false)

/-- A one-timestep, one-class tensor with score `1`. -/
def t1 : OutTensor := ⟨1, 1, fun _ _ => 1⟩

/-- Two successful calls with elapsed times 3 and 5 seconds. -/
def calls1 : List (OutTensor × ℚ) := [(t1, 3), (t1, 5)]

/-- A two-class row with an exact tie between the classes. -/
def rowOnes : Nat → ℚ := fun _ => 1

lemma bestIndexAux_append (row : Nat → ℚ) (l1 l2 : List Nat) (acc : Nat × ℚ) :
    bestIndexAux row (l1 ++ l2) acc = bestIndexAux row l2 (bestIndexAux row l1 acc) := by
  induction l1 generalizing acc with
  | nil => rfl
  | cons j js ih => simp only [List.cons_append, bestIndexAux]; exact ih _

lemma bestIndexAux_range_succ (row : Nat → ℚ) (n : Nat) (acc : Nat × ℚ) :
    bestIndexAux row (List.range (n + 1)) acc =
      (if row n > (bestIndexAux row (List.range n) acc).2
        then (n, row n) else bestIndexAux row (List.range n) acc) := by
  rw [List.range_succ, bestIndexAux_append]
  rfl

/-- Invariant of the argmax scan over `0..n` from the seed `(0, -1)`: either
no score beat the sentinel `-1` and the seed survives, or the result holds the
first-seen index of the running maximum. -/
lemma bestIndexAux_range_spec (row : Nat → ℚ) (n : Nat) :
    (bestIndexAux row (List.range n) (0, -1) = (0, -1) ∧ ∀ j < n, row j ≤ -1) ∨
    ((bestIndexAux row (List.range n) (0, -1)).1 < n ∧
      (bestIndexAux row (List.range n) (0, -1)).2 =
        row (bestIndexAux row (List.range n) (0, -1)).1 ∧
      -1 < (bestIndexAux row (List.range n) (0, -1)).2 ∧
      (∀ j < n, row j ≤ (bestIndexAux row (List.range n) (0, -1)).2) ∧
      (∀ j < (bestIndexAux row (List.range n) (0, -1)).1,
        row j < (bestIndexAux row (List.range n) (0, -1)).2)) := by
  induction n with
  | zero => exact Or.inl ⟨rfl, fun j hj => absurd hj (Nat.not_lt_zero j)⟩
  | succ n ih =>
      rw [bestIndexAux_range_succ]
      rcases ih with ⟨hp, hall⟩ | ⟨h1, h2, h3, h4, h5⟩
      · rw [hp]
        by_cases hcmp : row n > (-1 : ℚ)
        · refine Or.inr ?_
          rw [if_pos hcmp]
          refine ⟨Nat.lt_succ_self n, rfl, hcmp, ?_, ?_⟩
          · intro j hj
            rcases Nat.lt_succ_iff_lt_or_eq.mp hj with hj' | hj'
            · exact le_of_lt (lt_of_le_of_lt (hall j hj') hcmp)
            · exact le_of_eq (by rw [hj'])
          · intro j hj
            exact lt_of_le_of_lt (hall j hj) hcmp
        · refine Or.inl ?_
          rw [if_neg hcmp]
          refine ⟨rfl, fun j hj => ?_⟩
          rcases Nat.lt_succ_iff_lt_or_eq.mp hj with hj' | hj'
          · exact hall j hj'
          · rw [hj']; exact le_of_not_lt hcmp
      · by_cases hcmp : row n > (bestIndexAux row (List.range n) (0, -1)).2
        · refine Or.inr ?_
          rw [if_pos hcmp]
          refine ⟨Nat.lt_succ_self n, rfl, lt_trans h3 hcmp, ?_, ?_⟩
          · intro j hj
            rcases Nat.lt_succ_iff_lt_or_eq.mp hj with hj' | hj'
            · exact le_of_lt (lt_of_le_of_lt (h4 j hj') hcmp)
            · exact le_of_eq (by rw [hj'])
          · intro j hj
            exact lt_of_le_of_lt (h4 j hj) hcmp
        · refine Or.inr ?_
          rw [if_neg hcmp]
          refine ⟨Nat.lt_succ_of_lt h1, h2, h3, ?_, h5⟩
          intro j hj
          rcases Nat.lt_succ_iff_lt_or_eq.mp hj with hj' | hj'
          · exact h4 j hj'
          · rw [hj']; exact le_of_not_lt hcmp

/-- The argmax of the decode loop is the first-seen (least) index attaining
the maximum, provided every score beats the `-1` sentinel seed. -/
lemma bestIndex_spec (len : Nat) (row : Nat → ℚ) (hlen : 0 < len)
    (hseed : ∀ j < len, -1 < row j) :
    bestIndex len row < len ∧
    (∀ j < len, row j ≤ row (bestIndex len row)) ∧
    (∀ j < len, row j = row (bestIndex len row) → bestIndex len row ≤ j) := by
  rcases bestIndexAux_range_spec row len with ⟨hp, hall⟩ | ⟨h1, h2, h3, h4, h5⟩
  · exact absurd (hall 0 hlen) (not_le_of_lt (hseed 0 hlen))
  · unfold bestIndex
    rw [h2] at h4 h5
    refine ⟨h1, h4, fun j hj hje => ?_⟩
    by_contra hlt
    exact absurd (hje ▸ h5 j (Nat.lt_of_not_le hlt)) (lt_irrefl _)

/-- The argmax index is always within `0..len` (when `len > 0`), whatever the
scores: the decoder never computes a class index at or beyond the alphabet
length. -/
lemma bestIndex_lt (len : Nat) (row : Nat → ℚ) (hlen : 0 < len) :
    bestIndex len row < len := by
  rcases bestIndexAux_range_spec row len with ⟨hp, _⟩ | ⟨h1, _⟩
  · unfold bestIndex; rw [hp]; exact hlen
  · exact h1

/-- On a one-hot row the argmax is the hot index. -/
lemma bestIndex_onehot (len ix : Nat) (row : Nat → ℚ) (hix : ix < len)
    (h1 : row ix = 1) (h0 : ∀ j, j ≠ ix → row j = 0) :
    bestIndex len row = ix := by
  have hseed : ∀ j < len, (-1 : ℚ) < row j := by
    intro j hj
    by_cases hj' : j = ix
    · rw [hj', h1]; norm_num
    · rw [h0 j hj']; norm_num
  obtain ⟨hb1, hb2, _⟩ := bestIndex_spec len row (Nat.lt_of_le_of_lt (Nat.zero_le ix) hix) hseed
  by_contra hne
  have := hb2 ix hix
  rw [h1, h0 _ hne] at this
  norm_num at this

lemma get?_eq_some_getD {α : Type} (l : List α) (n : Nat) (d : α)
    (h : n < l.length) : l.get? n = some (l.getD n d) := by
  rw [List.getD_eq_getElem l d h, List.get?_eq_get h]
  simp

/-- When the alphabet is nonempty and no longer than the tensor's class
dimension, the decode loop is the left fold of the append-or-skip step over
the per-timestep argmax labels. -/
lemma decodeLoop_eq_fold (alphabet : List String) (t : OutTensor)
    (hne : alphabet ≠ []) (hC : alphabet.length ≤ t.C) :
    ∀ (is : List Nat) (ans last : String),
      decodeLoop alphabet t is ans last =
        .ok ((is.foldl
          (fun (p : String × String) i =>
            (if wordAt alphabet t i ≠ p.2 ∧ wordAt alphabet t i ≠ "-"
              then p.1 ++ wordAt alphabet t i else p.1, wordAt alphabet t i))
          (ans, last)).1) := by
  intro is
  induction is with
  | nil => intro ans last; rfl
  | cons i is ih =>
      intro ans last
      have hlen : 0 < alphabet.length := List.length_pos.mpr hne
      have hb := bestIndex_lt alphabet.length (t.val i) hlen
      rw [decodeLoop, if_pos hC, get?_eq_some_getD alphabet _ "" hb]
      exact ih _ _

/-- Any crash of the decode loop is an index-out-of-bounds panic (in
particular never a failed assertion). -/
lemma decodeLoop_crash_kind (alphabet : List String) (t : OutTensor) :
    ∀ (is : List Nat) (ans last : String) (a : Abort),
      decodeLoop alphabet t is ans last = .crash a → a = .indexOutOfBounds := by
  intro is
  induction is with
  | nil =>
      intro ans last a h
      exact absurd h (by simp [decodeLoop])
  | cons i is ih =>
      intro ans last a h
      rw [decodeLoop] at h
      by_cases hC : alphabet.length ≤ t.C
      · rw [if_pos hC] at h
        cases hg : alphabet.get? (bestIndex alphabet.length (t.val i)) with
        | none => rw [hg] at h; cases h; rfl
        | some w => rw [hg] at h; exact ih _ _ _ h
      · rw [if_neg hC] at h
        cases h
        rfl

/-- A successful `model.run` never leads to an assertion panic: the only
panics reachable from `inference_string` are index panics in the decode
loop. -/
lemma inference_string_ne_assert {Img : Type} (alphabet : List String)
    (run : Img → Except String OutTensor) (elapsed : Img → ℚ) (img : Img)
    (s : OCRState) :
    inference_string alphabet run elapsed img s ≠ .crash .assertFailed := by
  unfold inference_string
  cases hr : run img with
  | error e => simp [hr]
  | ok t =>
      cases hd : decodeLoop alphabet t (List.range t.T) "" "" with
      | ok ans => simp [hd]
      | err e => simp [hd]
      | crash a =>
          have ha := decodeLoop_crash_kind alphabet t _ _ _ _ hd
          subst ha
          simp [hd]

/-- Folding the append-or-skip step over indices, then mapping to words, is
the same as folding over the words. -/
lemma foldl_step_map (f : Nat → String) (blank : String) (is : List Nat)
    (p : String × String) :
    is.foldl
      (fun (p : String × String) i =>
        (if f i ≠ p.2 ∧ f i ≠ blank then p.1 ++ f i else p.1, f i)) p =
    (is.map f).foldl
      (fun (p : String × String) w =>
        (if w ≠ p.2 ∧ w ≠ blank then p.1 ++ w else p.1, w)) p := by
  induction is generalizing p with
  | nil => rfl
  | cons i is ih => simp only [List.foldl_cons, List.map_cons]; exact ih _

/-- On a tensor realising a best-index sequence, the label picked at
timestep `n` is the alphabet entry of the n-th index. -/
lemma map_range_wordAt (alphabet : List String) (idxs : List Nat)
    (h : ∀ ix ∈ idxs, ix < alphabet.length) :
    (List.range idxs.length).map
        (wordAt alphabet (tensorOfIndices alphabet.length idxs)) =
      idxs.map fun ix => alphabet.getD ix "" := by
  apply List.ext_get
  · simp
  · intro n h1 h2
    simp only [List.get_map, List.get_range]
    unfold wordAt
    have hn : n < idxs.length := by simpa using h2
    have hg : idxs.get? n = some (idxs.get ⟨n, hn⟩) := List.get?_eq_get hn
    have hb : bestIndex alphabet.length
        ((tensorOfIndices alphabet.length idxs).val n) = idxs.get ⟨n, hn⟩ := by
      apply bestIndex_onehot
      · exact h _ (List.get_mem idxs _ _)
      · simp [tensorOfIndices, hg]
      · intro j hj
        simp only [tensorOfIndices, hg]
        rw [if_neg]
        intro hc
        exact hj (Option.some_injective _ hc).symm
    rw [hb]

/-- Taken together: a successful inference call decodes to the fold and
updates the statistics once. -/
lemma inference_on_tensor_ok (alphabet : List String) (t : OutTensor) (e : ℚ)
    (s : OCRState) (hne : alphabet ≠ []) (hC : alphabet.length ≤ t.C) :
    inference_on_tensor alphabet t e s =
      .ok (((List.range t.T).foldl
        (fun (p : String × String) i =>
          (if wordAt alphabet t i ≠ p.2 ∧ wordAt alphabet t i ≠ "-"
            then p.1 ++ wordAt alphabet t i else p.1, wordAt alphabet t i))
        ("", "")).1, inc_statistics s e) := by
  simp only [inference_on_tensor, inference_string]
  rw [decodeLoop_eq_fold alphabet t hne hC]

/-- Whatever string a successful inference call returns, the state it
returns is the input state with the statistics bumped exactly once. -/
lemma inference_on_tensor_state (alphabet : List String) (t : OutTensor)
    (e : ℚ) (s : OCRState) (p : String × OCRState)
    (h : inference_on_tensor alphabet t e s = .ok p) :
    p.2 = inc_statistics s e := by
  simp only [inference_on_tensor, inference_string] at h
  cases hd : decodeLoop alphabet t (List.range t.T) "" "" with
  | ok ans => rw [hd] at h; cases h; rfl
  | crash a => rw [hd] at h; cases h
  | err e2 => rw [hd] at h; cases h

/-- A successful call sequence from state `s` ends with the cumulative time
increased by the sum of the elapsed times and the count by the number of
calls. -/
lemma runSeq_ok (alphabet : List String) :
    ∀ (calls : List (OutTensor × ℚ)) (s s' : OCRState),
      runSeq alphabet calls s = .ok s' →
      s' = ⟨s.inference_time + (calls.map Prod.snd).sum,
            s.invoke_count + calls.length⟩ := by
  intro calls
  induction calls with
  | nil =>
      intro s s' h
      rw [runSeq] at h
      cases h
      simp
  | cons c cs ih =>
      intro s s' h
      rw [runSeq] at h
      cases hi : inference_on_tensor alphabet c.1 c.2 s with
      | ok p =>
          rw [hi] at h
          have hp := inference_on_tensor_state alphabet c.1 c.2 s p hi
          have hrec := ih p.2 s' h
          rw [hrec, hp]
          simp only [inc_statistics, List.map_cons, List.sum_cons,
            List.length_cons, OCRState.mk.injEq]
          constructor
          · ring
          · omega
      | crash a => rw [hi] at h; cases h
      | err e => rw [hi] at h; cases h

/-- When the alphabet is longer than the tensor's class dimension, the very
first timestep panics with an out-of-bounds `ndarray` index. -/
lemma decodeLoop_cons_oob (alphabet : List String) (t : OutTensor)
    (i : Nat) (is : List Nat) (ans last : String) (h : t.C < alphabet.length) :
    decodeLoop alphabet t (i :: is) ans last = .crash .indexOutOfBounds := by
  rw [decodeLoop, if_neg (not_le_of_lt h)]

/-- If any entry of the mapping has an unparsable key or a non-string value,
the `.unwrap()`s in the mapping step panic. -/
lemma mapPairs_crash : ∀ (pairs : List (String × Json)),
    (∃ p ∈ pairs, parse_usize p.1 = none ∨ p.2.as_str = none) →
    mapPairs pairs = .crash .unwrapFailed := by
  intro pairs
  induction pairs with
  | nil =>
      intro h
      obtain ⟨p, hp, _⟩ := h
      cases hp
  | cons q rest ih =>
      intro h
      obtain ⟨p, hp, hbad⟩ := h
      obtain ⟨k, v⟩ := q
      rw [mapPairs]
      cases hk : parse_usize k with
      | none => rfl
      | some n =>
          cases hv : v.as_str with
          | none => rfl
          | some w =>
              have hrest : ∃ p ∈ rest, parse_usize p.1 = none ∨ p.2.as_str = none := by
                rcases List.mem_cons.mp hp with heq | hmem
                · exfalso
                  rcases hbad with hb | hb
                  · rw [heq] at hb
                    simp only at hb
                    rw [hk] at hb
                    cases hb
                  · rw [heq] at hb
                    simp only at hb
                    rw [hv] at hb
                    cases hb
                · exact ⟨p, hmem, hbad⟩
              rw [ih hrest]

/-- C1 counterexample: a concrete class-probability tensor (two classes,
one timestep) whose argmax over the full class range is at index 1, at or
beyond the alphabet length 1 — and decoding silently succeeds with `"a"`
instead of failing with a class-index-out-of-range error, refuting the
claim. -/
theorem claim_C1_counterexample :
    (tensorOfIndices 2 [1]).val 0 0 < (tensorOfIndices 2 [1]).val 0 1 ∧
    (["a"] : List String).length ≤ 1 ∧
    inference_on_tensor ["a"] (tensorOfIndices 2 [1]) 0 ⟨0, 0⟩ =
      .ok ("a", inc_statistics ⟨0, 0⟩ 0) :=
  ⟨by decide, by decide, by rfl⟩

/-- C1 (amended): class indices at or beyond the alphabet length are never
examined — the argmax loop runs over `0..alphabet.length`, so whenever the
alphabet is nonempty and no longer than the tensor's class dimension the
decode succeeds (silently ignoring higher class indices); an out-of-range
failure exists only in the opposite mismatch, as an index panic when the
alphabet is strictly longer than the tensor's class dimension. -/
theorem claim_C1_amended (alphabet : List String) (t : OutTensor) (e : ℚ)
    (s : OCRState) (hne : alphabet ≠ []) :
    (alphabet.length ≤ t.C →
      ∃ ans, inference_on_tensor alphabet t e s = .ok (ans, inc_statistics s e)) ∧
    (t.C < alphabet.length → 0 < t.T →
      inference_on_tensor alphabet t e s = .crash .indexOutOfBounds) := by
  constructor
  · intro hC
    exact ⟨_, inference_on_tensor_ok alphabet t e s hne hC⟩
  · intro hC hT
    obtain ⟨n, hn⟩ := Nat.exists_eq_succ_of_ne_zero (Nat.pos_iff_ne_zero.mp hT)
    simp only [inference_on_tensor, inference_string]
    rw [hn, List.range_succ_eq_map,
      decodeLoop_cons_oob alphabet t 0 _ "" "" hC]

/-- C1 witness: with a one-class alphabet, a matching tensor decodes
successfully, and a zero-class tensor (alphabet longer than the class
dimension) panics with an index error. -/
theorem claim_C1_witness :
    (∃ ans, inference_on_tensor ["a"] (tensorOfIndices 1 [0]) 0 ⟨0, 0⟩ =
      .ok (ans, inc_statistics ⟨0, 0⟩ 0)) ∧
    inference_on_tensor ["a"] ⟨1, 0, fun _ _ => 0⟩ 0 ⟨0, 0⟩ =
      .crash .indexOutOfBounds :=
  ⟨(claim_C1_amended ["a"] (tensorOfIndices 1 [0]) 0 ⟨0, 0⟩ (by simp)).1
      (by decide),
   (claim_C1_amended ["a"] ⟨1, 0, fun _ _ => 0⟩ 0 ⟨0, 0⟩ (by simp)).2
      (by decide) (by decide)⟩

/-- C2: on any tensor realising a per-timestep best-index sequence, the
decoder output is the word-level collapse of the chosen labels — a label is
appended only when it differs from the previous timestep's label and is not
the blank `"-"`, while the blank still updates the remembered last label;
in particular the best-index sequence for `[a, a, -, b, b, a]` decodes to
`"aba"`, and an all-blank sequence decodes to `""` as a success. -/
theorem claim_C2_collapse (alphabet : List String) (idxs : List Nat) (e : ℚ)
    (s : OCRState) (hne : alphabet ≠ [])
    (hidx : ∀ ix ∈ idxs, ix < alphabet.length) :
    (inference_on_tensor alphabet (tensorOfIndices alphabet.length idxs) e s =
      .ok (specCollapse "-" (idxs.map fun ix => alphabet.getD ix ""),
        inc_statistics s e)) ∧
    inference_on_tensor ["a", "-", "b"] (tensorOfIndices 3 [0, 0, 1, 2, 2, 0])
        0 ⟨0, 0⟩ =
      .ok ("aba", inc_statistics ⟨0, 0⟩ 0) ∧
    inference_on_tensor ["a", "-", "b"] (tensorOfIndices 3 [1, 1, 1]) 0 ⟨0, 0⟩ =
      .ok ("", inc_statistics ⟨0, 0⟩ 0) := by
  refine ⟨?_, by rfl, by rfl⟩
  rw [inference_on_tensor_ok alphabet (tensorOfIndices alphabet.length idxs)
    e s hne (le_of_eq rfl)]
  unfold specCollapse
  have hT : (tensorOfIndices alphabet.length idxs).T = idxs.length := rfl
  rw [hT, foldl_step_map
      (wordAt alphabet (tensorOfIndices alphabet.length idxs)) "-"
      (List.range idxs.length) ("", ""),
    map_range_wordAt alphabet idxs hidx]

/-- C2 witness: the general collapse theorem applied at the concrete
best-index sequence `[0, 0, 1, 2, 2, 0]` over the alphabet
`["a", "-", "b"]`. -/
theorem claim_C2_witness :
    inference_on_tensor ["a", "-", "b"] (tensorOfIndices 3 [0, 0, 1, 2, 2, 0])
        0 ⟨0, 0⟩ =
      .ok (specCollapse "-"
          ([0, 0, 1, 2, 2, 0].map fun ix => (["a", "-", "b"]).getD ix ""),
        inc_statistics ⟨0, 0⟩ 0) :=
  (claim_C2_collapse ["a", "-", "b"] [0, 0, 1, 2, 2, 0] 0 ⟨0, 0⟩ (by simp)
    (by decide)).1

/-- C3: at every timestep the class index chosen by the decoder is the
smallest index attaining the maximum score: the scan compares with strict
greater-than against a running maximum seeded at `-1`, so provided every
score exceeds that seed (as class probabilities do), the first-seen maximal
index wins ties. -/
theorem claim_C3_argmax_first_seen (len : Nat) (row : Nat → ℚ)
    (hlen : 0 < len) (hseed : ∀ j < len, -1 < row j) :
    bestIndex len row < len ∧
    (∀ j < len, row j ≤ row (bestIndex len row)) ∧
    (∀ j < len, row j = row (bestIndex len row) → bestIndex len row ≤ j) :=
  bestIndex_spec len row hlen hseed

/-- C3 witness: on a two-class row with an exact tie, the chosen index is
within range, maximal, and the least index attaining the maximum (so index 0
wins the tie). -/
theorem claim_C3_witness :
    bestIndex 2 rowOnes < 2 ∧
    (∀ j < 2, rowOnes j ≤ rowOnes (bestIndex 2 rowOnes)) ∧
    (∀ j < 2, rowOnes j = rowOnes (bestIndex 2 rowOnes) →
      bestIndex 2 rowOnes ≤ j) :=
  claim_C3_argmax_first_seen 2 rowOnes (by decide) (by decide)

/-- C4: alphabet construction maps every entry through the key parse, sorts
ascending by parsed integer key (a stable sort, so the label list is a
permutation of the parsed entries with sorted keys), and yields the label
sequence; in particular the mapping with keys 2, 0, 1 and labels
`"b", "a", "-"` yields `["a", "-", "b"]`. -/
theorem claim_C4_alphabet_sorted :
    (∀ (pairs : List (String × Json)) (l : List (Nat × String)),
      mapPairs pairs = .ok l →
      new_index_to_word (.obj pairs) = .ok ((l.insertionSort keyLE).map Prod.snd) ∧
      List.Sorted keyLE (l.insertionSort keyLE) ∧
      (l.insertionSort keyLE).Perm l) ∧
    new_index_to_word
        (.obj [("2", .str "b"), ("0", .str "a"), ("1", .str "-")]) =
      .ok ["a", "-", "b"] := by
  refine ⟨?_, by rfl⟩
  intro pairs l h
  refine ⟨?_, List.sorted_insertionSort keyLE l, List.perm_insertionSort keyLE l⟩
  simp only [new_index_to_word]
  rw [h]

/-- C4 witness: the general construction theorem applied at the concrete
mapping with keys 2, 0, 1. -/
theorem claim_C4_witness :
    new_index_to_word
        (.obj [("2", .str "b"), ("0", .str "a"), ("1", .str "-")]) =
      .ok ((([(2, "b"), (0, "a"), (1, "-")] :
        List (Nat × String)).insertionSort keyLE).map Prod.snd) ∧
    List.Sorted keyLE (([(2, "b"), (0, "a"), (1, "-")] :
      List (Nat × String)).insertionSort keyLE) ∧
    (([(2, "b"), (0, "a"), (1, "-")] :
      List (Nat × String)).insertionSort keyLE).Perm
        [(2, "b"), (0, "a"), (1, "-")] :=
  claim_C4_alphabet_sorted.1
    [("2", .str "b"), ("0", .str "a"), ("1", .str "-")]
    [(2, "b"), (0, "a"), (1, "-")] (by rfl)

/-- C5 counterexample: a mapping whose key `"x"` is not a decimal integer
makes construction panic (crash via `.unwrap()`), not return a recoverable
typed parse error, refuting the claim. -/
theorem claim_C5_counterexample :
    new_index_to_word (.obj [("x", .str "a")]) = .crash .unwrapFailed := by
  rfl

/-- C5 (amended): for every alphabet mapping in which some key is not a
valid non-negative decimal integer or some value is not a plain string,
construction panics through `.unwrap()` — a crash, not a recoverable typed
error returned to the caller. -/
theorem claim_C5_amended (pairs : List (String × Json))
    (h : ∃ p ∈ pairs, parse_usize p.1 = none ∨ p.2.as_str = none) :
    new_index_to_word (.obj pairs) = .crash .unwrapFailed := by
  simp only [new_index_to_word]
  rw [mapPairs_crash pairs h]

/-- C5 witness: a mapping whose value is not a string panics. -/
theorem claim_C5_witness :
    new_index_to_word (.obj [("0", Json.other)]) = .crash .unwrapFailed :=
  claim_C5_amended [("0", Json.other)] ⟨("0", Json.other), by simp, Or.inr rfl⟩

/-- C6: with `already_preprocessed = false`, when the preprocessor flags the
buffer as mono (`non_mono = false`), both the float-grayscale and the color
recognition paths return the empty string as a success and leave the
statistics state untouched, without invoking inference. -/
theorem claim_C6_mono_short_circuit {Img Rgb : Type} (alphabet : List String)
    (run : Img → Except String OutTensor) (elapsed : Img → ℚ)
    (pre_process : Img → Img × Bool) (to_gray : Rgb → Img)
    (fimg : Img) (cimg : Rgb) (s : OCRState) :
    ((pre_process fimg).2 = false →
      image_to_text_f32 alphabet run elapsed pre_process fimg false s =
        .ok ("", s)) ∧
    ((pre_process (to_gray cimg)).2 = false →
      image_to_text_rgb alphabet run elapsed to_gray pre_process cimg false s =
        .ok ("", s)) := by
  constructor
  · intro h
    simp [image_to_text_f32, h]
  · intro h
    simp [image_to_text_rgb, h]

/-- C6 witness: the short-circuit theorem applied to a preprocessor stub
whose flag is always `false`, at the fresh statistics state. -/
theorem claim_C6_witness :
    image_to_text_f32 [] run0 el0 pp0 () false ⟨0, 0⟩ = .ok ("", ⟨0, 0⟩) ∧
    image_to_text_rgb [] run0 el0 id pp0 () false ⟨0, 0⟩ = .ok ("", ⟨0, 0⟩) :=
  ⟨(claim_C6_mono_short_circuit [] run0 el0 pp0 id () () ⟨0, 0⟩).1 rfl,
   (claim_C6_mono_short_circuit [] run0 el0 pp0 id () () ⟨0, 0⟩).2 rfl⟩

/-- C7: after a sequence of successful non-short-circuited recognitions
from a fresh instance, the invocation count equals the number of calls, the
cumulative time is the sum of the recorded elapsed times, and the
average-latency query returns their arithmetic mean. -/
theorem claim_C7_statistics (alphabet : List String)
    (calls : List (OutTensor × ℚ)) (s' : OCRState)
    (h : runSeq alphabet calls ⟨0, 0⟩ = .ok s') :
    s'.invoke_count = calls.length ∧
    s'.inference_time = (calls.map Prod.snd).sum ∧
    (calls ≠ [] →
      get_average_inference_time s' =
        .finite ((calls.map Prod.snd).sum / (calls.length : ℚ))) := by
  have hs := runSeq_ok alphabet calls ⟨0, 0⟩ s' h
  rw [hs]
  refine ⟨by simp, by simp, ?_⟩
  intro hne
  have hlen : ((calls.length : Nat) : ℚ) ≠ 0 :=
    Nat.cast_ne_zero.mpr (List.length_pos.mpr hne).ne'
  simp [get_average_inference_time, f64div, hlen]

/-- C7 witness: two successful calls with elapsed times 3 and 5 give count
2 and average `(3 + 5) / 2`. -/
theorem claim_C7_witness :
    (⟨0 + 3 + 5, 0 + 1 + 1⟩ : OCRState).invoke_count = calls1.length ∧
    (⟨0 + 3 + 5, 0 + 1 + 1⟩ : OCRState).inference_time =
      (calls1.map Prod.snd).sum ∧
    get_average_inference_time ⟨0 + 3 + 5, 0 + 1 + 1⟩ =
      .finite ((calls1.map Prod.snd).sum / (calls1.length : ℚ)) := by
  have h := claim_C7_statistics ["a"] calls1 ⟨0 + 3 + 5, 0 + 1 + 1⟩ (by rfl)
  exact ⟨h.1, h.2.1, h.2.2 (by simp [calls1])⟩

/-- C8: the average-latency query divides cumulative time by cumulative
count; queried on the fresh state (count zero, before any successful
inference) it yields NaN — a non-finite value, not a finite number — and on
any state with nonzero count it yields the finite quotient. -/
theorem claim_C8_average_query :
    get_average_inference_time ⟨0, 0⟩ = F64.nan ∧
    F64.nan.isFinite = false ∧
    (∀ s : OCRState, s.invoke_count ≠ 0 →
      get_average_inference_time s =
        .finite (s.inference_time / (s.invoke_count : ℚ))) := by
  refine ⟨by rfl, by rfl, ?_⟩
  intro s h
  simp [get_average_inference_time, f64div, Nat.cast_ne_zero.mpr h]

/-- C8 witness: the query theorem applied at a state with count 2. -/
theorem claim_C8_witness :
    get_average_inference_time ⟨7, 2⟩ =
      .finite ((⟨7, 2⟩ : OCRState).inference_time /
        (((⟨7, 2⟩ : OCRState).invoke_count : Nat) : ℚ)) :=
  claim_C8_average_query.2.2 ⟨7, 2⟩ (by decide)

/-- C9: on the color-image path, `already_preprocessed = true` violates the
`assert_eq!` and fails fast with an assertion panic (not a recoverable typed
error), while with `already_preprocessed = false` the assertion never
fires — no reachable outcome of that call is an assertion panic. -/
theorem claim_C9_assert {Rgb Img : Type} (alphabet : List String)
    (run : Img → Except String OutTensor) (elapsed : Img → ℚ)
    (to_gray : Rgb → Img) (pre_process : Img → Img × Bool) (img : Rgb)
    (s : OCRState) :
    image_to_text_rgb alphabet run elapsed to_gray pre_process img true s =
      .crash .assertFailed ∧
    image_to_text_rgb alphabet run elapsed to_gray pre_process img false s ≠
      .crash .assertFailed := by
  constructor
  · rfl
  · simp only [image_to_text_rgb, Bool.false_eq_true, if_false]
    by_cases h : (pre_process (to_gray img)).2 = false
    · simp [h]
    · rw [if_neg h]
      exact inference_string_ne_assert alphabet run elapsed _ s

/-- C9 witness: the assertion theorem applied at concrete stub
parameters. -/
theorem claim_C9_witness :
    image_to_text_rgb [] run0 el0 id pp0 () true ⟨0, 0⟩ =
      .crash .assertFailed ∧
    image_to_text_rgb [] run0 el0 id pp0 () false ⟨0, 0⟩ ≠
      .crash .assertFailed :=
  claim_C9_assert [] run0 el0 id pp0 () ⟨0, 0⟩

/-- C10: recognition on an integer-grayscale image is exactly recognition on
its floating-point grayscale conversion with the same flag, for every image,
flag, conversion, and state: the integer path is a pure dispatch into the
shared float-grayscale code path. -/
theorem claim_C10_gray_dispatch {GrayT Img : Type} (alphabet : List String)
    (run : Img → Except String OutTensor) (elapsed : Img → ℚ)
    (to_f32 : GrayT → Img) (pre_process : Img → Img × Bool) (im : GrayT)
    (is_preprocessed : Bool) (s : OCRState) :
    image_to_text_gray alphabet run elapsed to_f32 pre_process im
        is_preprocessed s =
      image_to_text_f32 alphabet run elapsed pre_process (to_f32 im)
        is_preprocessed s :=
  rfl

end YasOCR
